import Mathlib

/-!
Verification of the image triage/categorization and cropping pipelines.

The development shallowly embeds the two Python modules of the repository:
`classify.py` (sharpness gate, dominant-color selection, label-to-category
resolution, per-image categorization fan-out) and `crop.py` (bounding-box
extraction and pixel-rectangle computation).  Floating-point quantities are
modelled as rationals, Python dictionaries as insertion-ordered association
lists with overwrite-in-place semantics, and fallible code (code that can
raise) returns `Option` / an explicit `crashed` outcome.
-/

/-! ## Data model (§3 of the design) -/

/-- A relative bounding box, all fields fractions of the image dimensions. -/
structure BoundingBox where
  left : ℚ
  top : ℚ
  width : ℚ
  height : ℚ
deriving DecidableEq

/-- One localized occurrence of a label (`Instance` in the detection result). -/
structure RekInstance where
  confidence : ℚ
  boundingBox : BoundingBox
deriving DecidableEq

/-- A detected label: a name together with its localized instances. -/
structure Label where
  name : String
  instances : List RekInstance
deriving DecidableEq

/-- One weighted color observation (`PixelPercent` / `SimplifiedColor`). -/
structure DominantColor where
  pixelPercent : ℚ
  simplifiedColor : String
deriving DecidableEq

/-- The image-level properties of a detection result: the optional sharpness
score (absent when the service returned no `Quality.Sharpness` entry) and the
dominant-color observations. -/
structure ImageProperties where
  sharpness : Option ℚ
  dominantColors : List DominantColor
deriving DecidableEq

/-! ## String primitives

Python's `str.startswith` and `str.split` are embedded structurally over the
character lists of the strings, so that the kernel can evaluate them on
concrete inputs (Lean core's own `String.startsWith` and `String.splitOn` use
well-founded position loops that do not reduce). -/

/-- `startsWithChars s p`: the character list `s` begins with `p`
(Python `s.startswith(p)` on the underlying characters). -/
def startsWithChars : List Char → List Char → Bool
  | _, [] => true
  | [], _ :: _ => false
  | c :: cs, p :: ps => c = p && startsWithChars cs ps

/-- Python `s.startswith(p)`. -/
def pyStartsWith (s p : String) : Bool := startsWithChars s.data p.data

/-- Python `s.split(sep)` for a one-character separator: cut the character
list at every occurrence of `sep`; an empty input yields `[[]]`, matching
`"".split(",") == [""]`. -/
def splitChar (sep : Char) : List Char → List (List Char)
  | [] => [[]]
  | d :: ds =>
    if d = sep then [] :: splitChar sep ds
    else match splitChar sep ds with
      | [] => [[d]]
      | h :: t => (d :: h) :: t

/-! ## CategoryResolver (`get_label_category`, classify.py lines 119-125) -/

/-- The column separator of the category mapping file (`CSV_SEPARATOR` is the
one-character string `","` in the source). -/
def CSV_SEPARATOR : Char := ','

/-- Python `line.split(CSV_SEPARATOR)`. -/
def pySplit (s : String) : List String := (splitChar CSV_SEPARATOR s.data).map String.mk

/-- Embedding of `get_label_category`: scan the lines of the mapping file in
order; on the first line that starts with the label, return the text between
the first and second separator (`line.split(",")[1]`); `none` when no line
matches (the Python function returns `None`).  A matching line without a
separator makes the Python code raise `IndexError`; here `List.get?` returns
`none` in that case, which no claim exercises. -/
def get_label_category : List String → String → Option String
  | [], _ => none
  | line :: rest, label =>
    if pyStartsWith line label then (pySplit line).get? 1
    else get_label_category rest label

/-- The resolution rule exactly as claim C1 states it (not as the code does
it): the category of the first table entry whose key is a string-prefix of the
label name.  Kept only to exhibit where the code diverges from the claim. -/
def resolve_claim (table : List (String × String)) (label : String) : Option String :=
  (table.find? (fun e => pyStartsWith label e.1)).map (fun e => e.2)

/-! ## ImageQualityGate (`is_sharp`, classify.py lines 99-107) -/

/-- Embedding of `is_sharp`: read the sharpness score out of the image
properties, substituting 100 when it is absent
(`image_properties.get("Quality", {}).get("Sharpness", 100)`), and return
whether it is strictly greater than the threshold. -/
def is_sharp (image_properties : ImageProperties) (threshold : ℚ) : Bool :=
  decide (threshold < image_properties.sharpness.getD 100)

/-! ## Python dictionaries

A Python `dict` is modelled as an insertion-ordered association list with
unique keys: assignment overwrites an existing key in place and otherwise
appends at the end, exactly the observable behaviour of `dict` comprehensions
and `dict[...] = ...` updates. -/

/-- Python `d[k] = v` on an association list. -/
def dict_insert {κ β : Type} [DecidableEq κ] : List (κ × β) → κ → β → List (κ × β)
  | [], k, v => [(k, v)]
  | p :: rest, k, v => if p.1 = k then (k, v) :: rest else p :: dict_insert rest k v

/-- Python `d[k]` on an association list (`none` when the key is absent,
where Python raises `KeyError`). -/
def dict_lookup {κ β : Type} [DecidableEq κ] : List (κ × β) → κ → Option β
  | [], _ => none
  | p :: rest, k => if p.1 = k then some p.2 else dict_lookup rest k

/-! ## DominantColorSelector (`get_dominant_color_name`, classify.py
lines 110-116) -/

/-- Embedding of `get_dominant_color_name`: build the dictionary
`{color["PixelPercent"]: color["SimplifiedColor"] for color in ...}` (later
observations overwrite earlier ones sharing the same percentage), then look up
the maximal key.  On an empty observation set the Python code raises an
unqualified `ValueError` out of `max()`; that crash is modelled as `none`. -/
def get_dominant_color_name (colors : List DominantColor) : Option String :=
  let m := colors.foldl (fun acc c => dict_insert acc c.pixelPercent c.simplifiedColor) []
  match (m.map (fun p => p.1)).max? with
  | none => none
  | some k => dict_lookup m k

/-! ## CategorizationEngine (classify.py `__main__` loop body, lines 158-185)

The per-image loop body is embedded as a pure function from the detection
result to the sequence of destination directories handed to `make_category`
(which creates the directory and copies the image into it).  The three ways
one iteration can end are distinguished: the sharpness gate skips the image
(no destination at all), the iteration crashes (`TypeError` from
`os.path.join(..., None, ...)` on an unresolvable category, or the `max()`
`ValueError` on an empty observation set) after having made the destinations
accumulated so far, or it completes normally. -/

/-- Outcome of categorizing one image: `skipped` (blurry, logged and left
alone), `crashed made` (a runtime error after the destinations in `made` were
already created), or `ok made` (all destinations in `made` created, in
order). -/
inductive CatResult where
  | skipped : CatResult
  | crashed : List String → CatResult
  | ok : List String → CatResult
deriving DecidableEq

/-- `os.path.join` for two relative components. -/
def pathJoin (a b : String) : String := a ++ "/" ++ b

/-- The `for label in labels` loop of the `__main__` body: a label whose
instance list is non-empty is passed over (`if not label.get("Instances")`);
a label with an empty instance list has its category resolved and
`labels/<category>/<name>` appended to the made destinations — unless the
category is absent, in which case `os.path.join` raises `TypeError` and the
iteration crashes. -/
def categorize_labels (labels_dir : String) (table : List String) :
    List Label → List String → CatResult
  | [], made => .ok made
  | l :: rest, made =>
    if l.instances.isEmpty then
      match get_label_category table l.name with
      | none => .crashed made
      | some cat =>
        categorize_labels labels_dir table rest
          (made ++ [pathJoin (pathJoin labels_dir cat) l.name])
    else categorize_labels labels_dir table rest made

/-- Embedding of one iteration of the `__main__` loop over images: gate on
sharpness (skip when blurry), compute the dominant color (crash when the
observation set is empty), make `colors/<dominantColor>`, then process the
labels. -/
def categorize (output_dir : String) (table : List String)
    (properties : ImageProperties) (labels : List Label)
    (min_sharpness : ℚ) : CatResult :=
  if is_sharp properties min_sharpness = false then .skipped
  else
    match get_dominant_color_name properties.dominantColors with
    | none => .crashed []
    | some color =>
      categorize_labels (pathJoin output_dir "labels") table labels
        [pathJoin (pathJoin output_dir "colors") color]

/-! ## ImageCropper (`make_cropped_images`, crop.py lines 47-67) -/

/-- Python `int(...)` on a rational: truncation toward zero. -/
def pyInt (q : ℚ) : ℤ := if 0 ≤ q then ⌊q⌋ else ⌈q⌉

/-- The pixel rectangle computed for one bounding box by `make_cropped_images`
(crop.py lines 58-62): `left = int(bbox["Left"] * width)`,
`top = int(bbox["Top"] * height)`, `right = left + int(bbox["Width"] * width)`,
`bottom = top + int(bbox["Height"] * height)`. -/
def crop_rect (bbox : BoundingBox) (width height : ℕ) : ℤ × ℤ × ℤ × ℤ :=
  let left := pyInt (bbox.left * width)
  let top := pyInt (bbox.top * height)
  let right := left + pyInt (bbox.width * width)
  let bottom := top + pyInt (bbox.height * height)
  (left, top, right, bottom)

/-- The pure content of `make_cropped_images`: for each named bounding box,
the output file keeps its key as name and receives the crop at the computed
pixel rectangle; the actual decode/crop/save I/O is delegated. -/
def make_cropped_images (bounding_boxes : List (String × BoundingBox))
    (width height : ℕ) : List (String × (ℤ × ℤ × ℤ × ℤ)) :=
  bounding_boxes.map (fun p => (p.1, crop_rect p.2 width height))

/-! ## BoundingBoxExtractor (`extract_bounding_boxes`, crop.py lines 25-44) -/

/-- Embedding of `extract_bounding_boxes`: for each label, for each instance
in received order (`enumerate`), when the instance confidence is at least the
threshold, assign its bounding box to the dictionary under the key
`f"{name}-{i}"`. -/
def extract_bounding_boxes (labels : List Label) (min_confidence : ℚ) :
    List (String × BoundingBox) :=
  labels.foldl (fun result l =>
    (l.instances.enum).foldl (fun result p =>
      if min_confidence ≤ p.2.confidence then
        dict_insert result (l.name ++ "-" ++ Nat.repr p.1) p.2.boundingBox
      else result) result) []

/-! ## Decimal representation of instance indices

The extractor keys are the Python f-strings `f"{name}-{i}"`, embedded as
`name ++ "-" ++ Nat.repr i`.  The lemmas below establish the two facts the
key analysis needs: `Nat.repr` is injective and its output never contains
the separator character. -/

/-- The numeric value of a decimal digit character. -/
def charVal (c : Char) : ℕ := c.toNat - '0'.toNat

/-- The number denoted by a list of decimal digit characters. -/
def digitsVal (cs : List Char) : ℕ := cs.foldl (fun acc c => acc * 10 + charVal c) 0

/-! ## BoundingBoxExtractor characterization -/

/-- The key-box pairs one label contributes: one pair per instance meeting
the confidence threshold, keyed by label name and instance index. -/
def instance_entries (name : String) (min_confidence : ℚ)
    (insts : List RekInstance) : List (String × BoundingBox) :=
  ((insts.enum).filter (fun p => min_confidence ≤ p.2.confidence)).map
    (fun p => (name ++ "-" ++ Nat.repr p.1, p.2.boundingBox))

/-! ## Theorems -/

/-- C1 (counterexample): on the claim's own table, resolving the label "ca"
returns "Animals" — the code tests whether the *line* starts with the label,
so the first line "cat,Animals" matches the label "ca" — while the claim
(first entry whose key is a string-prefix of the label) demands "Vehicles". -/
theorem get_label_category_counterexample :
    get_label_category ["cat,Animals", "ca,Vehicles"] "ca" = some "Animals" ∧
    resolve_claim [("cat", "Animals"), ("ca", "Vehicles")] "ca" = some "Vehicles" := by
  constructor <;> decide

/-- C1 (amended): resolution scans the table in file order and returns the
category field of the first *line that starts with the label name* (the label
is a string-prefix of the whole line, key and category included); it returns
absence when no line starts with the label.  In particular resolving "cat"
against the table [("cat","Animals"),("ca","Vehicles")] still returns
"Animals". -/
theorem get_label_category_spec :
    (∀ (lines : List String) (label : String),
      get_label_category lines label =
        (lines.find? (fun l => pyStartsWith l label)).bind
          (fun l => (pySplit l).get? 1)) ∧
    get_label_category ["cat,Animals", "ca,Vehicles"] "cat" = some "Animals" := by
  constructor
  · intro lines label
    induction lines with
    | nil => rfl
    | cons line rest ih =>
      simp only [get_label_category, List.find?]
      cases h : pyStartsWith line label <;> simp [h, ih]
  · decide

/-- C5 (counterexample): at threshold 100 an image carrying no sharpness
measurement is rejected by the gate — the substituted sentinel is exactly 100
and the comparison is strict — so "for every threshold, absent sharpness
always passes" is false on the code. -/
theorem is_sharp_absent_counterexample :
    is_sharp ⟨none, []⟩ 100 = false := by decide

/-- C5 (amended): the gate returns true exactly when the sharpness value —
with the sentinel 100 substituted when the measurement is absent — is
strictly greater than the threshold.  For present sharpness that is exactly
`sharpness > threshold`; for absent sharpness the gate passes exactly when
the threshold is strictly below 100 (in particular at the default threshold
60), and rejects at every threshold of 100 or more. -/
theorem is_sharp_spec (colors : List DominantColor) (s threshold : ℚ) :
    is_sharp ⟨some s, colors⟩ threshold = decide (threshold < s) ∧
    is_sharp ⟨none, colors⟩ threshold = decide (threshold < 100) :=
  ⟨rfl, rfl⟩

/-- C5 witness: the amended gate behaviour at sharpness 70 against the default
threshold 60, at an absent sharpness against the same threshold, and at an
absent sharpness against a threshold above the sentinel. -/
theorem is_sharp_spec_witness :
    is_sharp ⟨some 70, []⟩ 60 = true ∧ is_sharp ⟨none, []⟩ 60 = true ∧
    is_sharp ⟨none, []⟩ 150 = false :=
  ⟨((is_sharp_spec [] 70 60).1).trans (by decide),
    ((is_sharp_spec [] 70 60).2).trans (by decide),
    ((is_sharp_spec [] 70 150).2).trans (by decide)⟩

/-- C8: on the empty observation set the selector produces no result at all —
the Python source raises an unqualified `ValueError` from `max()` on an empty
sequence (modelled as `none`) instead of the explicit, reported `InvalidInput`
error the specification requires. -/
theorem get_dominant_color_name_empty_crash :
    get_dominant_color_name [] = none := rfl

/-- C9: when the sharpness gate rejects an image, categorization returns the
`skipped` outcome, which carries no destination path at all: no `colors/` or
`labels/` destination is produced, hence no directory is created and no file
is copied for that image. -/
theorem categorize_skipped_of_blurry (output_dir : String) (table : List String)
    (properties : ImageProperties) (labels : List Label) (min_sharpness : ℚ)
    (h : is_sharp properties min_sharpness = false) :
    categorize output_dir table properties labels min_sharpness = .skipped := by
  simp [categorize, h]

/-- C9 witness: an image of sharpness 30 against the default threshold 60 is
skipped. -/
theorem categorize_skipped_of_blurry_witness :
    is_sharp ⟨some 30, [⟨50, "Red"⟩]⟩ 60 = false ∧
    categorize "out" ["cat,Animals"] ⟨some 30, [⟨50, "Red"⟩]⟩ [⟨"Dog", []⟩] 60 =
      .skipped :=
  ⟨by decide, categorize_skipped_of_blurry "out" ["cat,Animals"] ⟨some 30, [⟨50, "Red"⟩]⟩
    [⟨"Dog", []⟩] 60 (by decide)⟩

/-- C6: on a sharp image whose only whole-image label "Zebra" has no match in
the mapping table, the code does not degrade to an `uncategorized` bucket:
category resolution returns absence and the loop iteration crashes
(`os.path.join(labels_dir, None, "Zebra")` raises `TypeError`) right after the
color destination was made, producing no `labels/...` destination at all. -/
theorem categorize_unresolved_label_crash :
    get_label_category ["cat,Animals"] "Zebra" = none ∧
    categorize "out" ["cat,Animals"] ⟨some 90, [⟨60, "Blue"⟩]⟩ [⟨"Zebra", []⟩] 60 =
      .crashed ["out/colors/Blue"] := by
  constructor <;> decide

/-- C2 (counterexample): a sharp image with the single whole-image label "Dog"
and a mapping table in which "Dog" does not resolve: the claim demands exactly
one `labels/...` destination for "Dog", but the iteration crashes and the only
destination ever made is the color one — no `labels/` destination exists. -/
theorem categorize_empty_label_counterexample :
    categorize "o" ["cat,Animals"] ⟨some 100, [⟨50, "Red"⟩]⟩ [⟨"Dog", []⟩] 60 =
      .crashed ["o/colors/Red"] ∧
    pyStartsWith "o/colors/Red" "o/labels" = false := by
  constructor <;> decide

/-- Helper: when every whole-image label of the list resolves to a category,
the label loop completes and appends exactly one `labels/<category>/<name>`
destination per empty-instance label, in order, and none for instance-bearing
labels. -/
theorem categorize_labels_ok (labels_dir : String) (table : List String)
    (ls : List Label) (made : List String)
    (hres : ∀ l ∈ ls, l.instances = [] → (get_label_category table l.name).isSome) :
    categorize_labels labels_dir table ls made =
      .ok (made ++ (ls.filter (fun l => l.instances.isEmpty)).map
        (fun l => pathJoin (pathJoin labels_dir
          ((get_label_category table l.name).getD "")) l.name)) := by
  induction ls generalizing made with
  | nil => simp [categorize_labels]
  | cons l rest ih =>
    have hrest : ∀ l' ∈ rest, l'.instances = [] →
        (get_label_category table l'.name).isSome :=
      fun l' hl' => hres l' (List.mem_cons_of_mem _ hl')
    by_cases he : l.instances.isEmpty
    · have hnil : l.instances = [] := List.isEmpty_iff.mp he
      obtain ⟨cat, hcat⟩ :=
        Option.isSome_iff_exists.mp (hres l (List.mem_cons_self _ _) hnil)
      simp [categorize_labels, he, hcat, ih _ hrest]
    · simp [categorize_labels, he, ih _ hrest]

/-- C2 (amended): on a sharp image with a computable dominant color, and
provided every empty-instance label's name resolves to a category in the
mapping table (an unresolvable one crashes the iteration instead, see C6),
the destination set is exactly the color destination followed by one
`labels/<category>/<labelName>` destination per label with an empty instance
list — and no `labels/...` destination for any label with a non-empty
instance list. -/
theorem categorize_paths (output_dir : String) (table : List String)
    (properties : ImageProperties) (labels : List Label)
    (min_sharpness : ℚ) (color : String)
    (hsharp : is_sharp properties min_sharpness = true)
    (hcolor : get_dominant_color_name properties.dominantColors = some color)
    (hres : ∀ l ∈ labels, l.instances = [] → (get_label_category table l.name).isSome) :
    categorize output_dir table properties labels min_sharpness =
      .ok (pathJoin (pathJoin output_dir "colors") color ::
        (labels.filter (fun l => l.instances.isEmpty)).map
          (fun l => pathJoin (pathJoin (pathJoin output_dir "labels")
            ((get_label_category table l.name).getD "")) l.name)) := by
  simp [categorize, hsharp, hcolor, categorize_labels_ok _ _ _ _ hres]

/-- C2 witness: a sharp red image with the whole-image label "Dog" (mapped to
"Animals") and the instance-bearing label "Cat": the "Dog" label contributes
exactly one `labels/Animals/Dog` destination and the "Cat" label none. -/
theorem categorize_paths_witness :
    categorize "o" ["Dog,Animals"] ⟨some 100, [⟨50, "Red"⟩]⟩
      [⟨"Dog", []⟩, ⟨"Cat", [⟨80, ⟨0, 0, 1, 1⟩⟩]⟩] 60 =
      .ok ["o/colors/Red", "o/labels/Animals/Dog"] :=
  (categorize_paths "o" ["Dog,Animals"] ⟨some 100, [⟨50, "Red"⟩]⟩
    [⟨"Dog", []⟩, ⟨"Cat", [⟨80, ⟨0, 0, 1, 1⟩⟩]⟩] 60 "Red"
    (by decide) (by decide) (by decide)).trans (by decide)

/-- C3: for every bounding box with nonnegative fractional fields (the data
model constrains them to [0,1]) and every integer image dimensions, the
absolute pixel rectangle is `left = ⌊bbox.left * width⌋`,
`top = ⌊bbox.top * height⌋`, `right = left + ⌊bbox.width * width⌋`,
`bottom = top + ⌊bbox.height * height⌋` — the truncating `int()` conversion
agrees with the floor on nonnegative values. -/
theorem crop_rect_floor (bbox : BoundingBox) (width height : ℕ)
    (h1 : 0 ≤ bbox.left) (h2 : 0 ≤ bbox.top)
    (h3 : 0 ≤ bbox.width) (h4 : 0 ≤ bbox.height) :
    crop_rect bbox width height =
      (⌊bbox.left * width⌋, ⌊bbox.top * height⌋,
       ⌊bbox.left * width⌋ + ⌊bbox.width * width⌋,
       ⌊bbox.top * height⌋ + ⌊bbox.height * height⌋) := by
  unfold crop_rect pyInt
  rw [if_pos (mul_nonneg h1 (Nat.cast_nonneg width)),
    if_pos (mul_nonneg h2 (Nat.cast_nonneg height)),
    if_pos (mul_nonneg h3 (Nat.cast_nonneg width)),
    if_pos (mul_nonneg h4 (Nat.cast_nonneg height))]

/-- C3 witness: on a 1000×500 image, the box {left: 0.1, top: 0.2, width: 0.5,
height: 0.5} yields the pixel rectangle (100, 100)-(600, 350). -/
theorem crop_rect_floor_witness :
    crop_rect ⟨1/10, 1/5, 1/2, 1/2⟩ 1000 500 = (100, 100, 600, 350) :=
  (crop_rect_floor ⟨1/10, 1/5, 1/2, 1/2⟩ 1000 500
    (by norm_num) (by norm_num) (by norm_num) (by norm_num)).trans (by norm_num)

/-- C4 (counterexample): two labels that share the name "Dog", each with one
qualifying instance, derive the same key "Dog-0", and the second assignment
overwrites the first — the entry "Dog-0" no longer maps to the first label's
instance box even though that instance meets the confidence threshold. -/
theorem extract_bounding_boxes_counterexample :
    extract_bounding_boxes
      [⟨"Dog", [⟨80, ⟨0, 0, 1, 1⟩⟩]⟩, ⟨"Dog", [⟨80, ⟨1, 1, 1, 1⟩⟩]⟩] 75 =
      [("Dog-0", ⟨1, 1, 1, 1⟩)] ∧
    (⟨1, 1, 1, 1⟩ : BoundingBox) ≠ ⟨0, 0, 1, 1⟩ := by
  constructor <;> decide

/-- Looking a key up after an assignment: the assigned key yields the new
value, every other key is untouched. -/
theorem dict_lookup_insert {κ β : Type} [DecidableEq κ]
    (m : List (κ × β)) (k : κ) (v : β) (k' : κ) :
    dict_lookup (dict_insert m k v) k' = if k' = k then some v else dict_lookup m k' := by
  induction m with
  | nil =>
    rcases eq_or_ne k' k with h | h
    · subst h; simp [dict_insert, dict_lookup]
    · simp [dict_insert, dict_lookup, h, Ne.symm h]
  | cons p rest ih =>
    by_cases hp : p.1 = k
    · rcases eq_or_ne k' k with hk | hk
      · subst hk; simp [dict_insert, dict_lookup, hp]
      · have hpk' : p.1 ≠ k' := by rw [hp]; exact Ne.symm hk
        simp [dict_insert, dict_lookup, hp, hk, Ne.symm hk, hpk']
    · by_cases hpk : p.1 = k'
      · have hk : k' ≠ k := fun he => hp (hpk.trans he)
        simp [dict_insert, dict_lookup, hp, hpk, hk]
      · simp [dict_insert, dict_lookup, hp, hpk, ih]

/-- Folding a list of key-value pairs into a dictionary: a lookup returns the
value of the last pair carrying the key, falling back to the initial
dictionary when no pair carries it. -/
theorem dict_lookup_foldl_insert {κ β : Type} [DecidableEq κ]
    (ps : List (κ × β)) (m : List (κ × β)) (k : κ) :
    dict_lookup (ps.foldl (fun acc p => dict_insert acc p.1 p.2) m) k =
      Option.or (((ps.filter (fun p => p.1 = k)).getLast?).map (fun p => p.2))
        (dict_lookup m k) := by
  induction ps generalizing m with
  | nil => simp
  | cons p ps ih =>
    rw [List.foldl_cons, ih, dict_lookup_insert]
    by_cases hp : p.1 = k
    · rw [List.filter_cons_of_pos (by simpa using hp), if_pos hp.symm,
        ← List.singleton_append, List.getLast?_append]
      simp [Option.map_or', Option.or_assoc]
    · rw [List.filter_cons_of_neg (by simpa using hp), if_neg (fun he => hp he.symm)]

/-- The key set of a dictionary after an assignment. -/
theorem mem_keys_dict_insert {κ β : Type} [DecidableEq κ]
    (m : List (κ × β)) (k : κ) (v : β) (x : κ) :
    x ∈ (dict_insert m k v).map (fun p => p.1) ↔ x = k ∨ x ∈ m.map (fun p => p.1) := by
  induction m with
  | nil => simp [dict_insert]
  | cons p rest ih =>
    by_cases hp : p.1 = k
    · simp only [dict_insert, hp, eq_self_iff_true, if_true, List.map_cons, List.mem_cons]
      tauto
    · simp only [dict_insert, if_neg hp, List.map_cons, List.mem_cons, ih]
      tauto

/-- The key set of a dictionary built by folding assignments. -/
theorem mem_keys_foldl_insert {κ β : Type} [DecidableEq κ]
    (ps m : List (κ × β)) (x : κ) :
    x ∈ ((ps.foldl (fun acc p => dict_insert acc p.1 p.2) m).map (fun p => p.1)) ↔
      x ∈ ps.map (fun p => p.1) ∨ x ∈ m.map (fun p => p.1) := by
  induction ps generalizing m with
  | nil => simp
  | cons p ps ih =>
    rw [List.foldl_cons, ih]
    simp only [List.map_cons, List.mem_cons, mem_keys_dict_insert]
    tauto

/-- `List.max?` on rationals returns exactly the greatest member. -/
theorem rat_max?_eq_some_iff (l : List ℚ) (a : ℚ) :
    l.max? = some a ↔ a ∈ l ∧ ∀ b ∈ l, b ≤ a := by
  have : Std.Antisymm ((· ≤ ·) : ℚ → ℚ → Prop) := ⟨fun h h' => le_antisymm h h'⟩
  rw [List.max?_eq_some_iff]
  · exact fun a => le_refl a
  · exact fun a b => max_choice a b
  · exact fun a b c => max_le_iff

/-- Two lists of rationals with the same members have the same maximum. -/
theorem rat_max?_congr (l1 l2 : List ℚ) (h : ∀ x, x ∈ l1 ↔ x ∈ l2) :
    l1.max? = l2.max? := by
  cases h1 : l1.max? with
  | none =>
    rw [List.max?_eq_none_iff] at h1
    subst h1
    rw [eq_comm, List.max?_eq_none_iff, List.eq_nil_iff_forall_not_mem]
    exact fun x hx => (List.not_mem_nil x) ((h x).mpr hx)
  | some a =>
    rw [rat_max?_eq_some_iff] at h1
    rw [eq_comm, rat_max?_eq_some_iff]
    exact ⟨(h a).mp h1.1, fun b hb => h1.2 b ((h b).mpr hb)⟩

/-- Characterization of `get_dominant_color_name` on a non-empty observation
list: the result is the simplified color of the *last* observation whose
`PixelPercent` equals the maximal `PixelPercent`. -/
theorem get_dominant_spec (colors : List DominantColor) (h : colors ≠ []) :
    get_dominant_color_name colors =
      ((colors.filter (fun c =>
        (colors.map (fun d => d.pixelPercent)).max? = some c.pixelPercent)).getLast?).map
        (fun c => c.simplifiedColor) := by
  obtain ⟨M, hM⟩ : ∃ M, (colors.map (fun d => d.pixelPercent)).max? = some M := by
    cases hm : (colors.map (fun d => d.pixelPercent)).max? with
    | none =>
      rw [List.max?_eq_none_iff, List.map_eq_nil_iff] at hm
      exact absurd hm h
    | some M => exact ⟨M, rfl⟩
  have hfold : colors.foldl (fun acc c => dict_insert acc c.pixelPercent c.simplifiedColor)
      ([] : List (ℚ × String)) =
      (colors.map (fun c => (c.pixelPercent, c.simplifiedColor))).foldl
        (fun acc p => dict_insert acc p.1 p.2) [] := by
    rw [List.foldl_map]
  have hkeys : ∀ x : ℚ,
      x ∈ (colors.foldl (fun acc c => dict_insert acc c.pixelPercent c.simplifiedColor)
        ([] : List (ℚ × String))).map (fun p => p.1) ↔
      x ∈ colors.map (fun d => d.pixelPercent) := by
    intro x
    rw [hfold, mem_keys_foldl_insert]
    simp [List.map_map, Function.comp]
  have hmax : ((colors.foldl (fun acc c => dict_insert acc c.pixelPercent c.simplifiedColor)
      ([] : List (ℚ × String))).map (fun p => p.1)).max? = some M :=
    (rat_max?_congr _ _ hkeys).trans hM
  have hmain : get_dominant_color_name colors =
      dict_lookup ((colors.map (fun c => (c.pixelPercent, c.simplifiedColor))).foldl
        (fun acc p => dict_insert acc p.1 p.2) []) M := by
    simp only [get_dominant_color_name]
    rw [hmax, hfold]
  rw [hmain, dict_lookup_foldl_insert,
    show dict_lookup ([] : List (ℚ × String)) M = none from rfl, Option.or_none,
    List.filter_map, List.getLast?_map, Option.map_map, hM]
  have hpred : ∀ c ∈ colors,
      ((fun p : ℚ × String => decide (p.1 = M)) ∘
        (fun c : DominantColor => (c.pixelPercent, c.simplifiedColor))) c =
      (fun c : DominantColor => decide (some M = some c.pixelPercent)) c := by
    intro c _
    simp [Function.comp, eq_comm]
  rw [List.filter_congr hpred]
  rfl

/-- C10: on every non-empty observation list, later observations sharing a
`PixelPercent` overwrite earlier ones in the dictionary comprehension, so the
selector returns the simplified color of the last observation in input order
that carries the maximal `PixelPercent`. -/
theorem get_dominant_color_name_last_max (colors : List DominantColor) (h : colors ≠ []) :
    get_dominant_color_name colors =
      ((colors.filter (fun c =>
        (colors.map (fun d => d.pixelPercent)).max? = some c.pixelPercent)).getLast?).map
        (fun c => c.simplifiedColor) :=
  get_dominant_spec colors h

/-- C10 witness: on {(50,"A"),(50,"B")} the tie breaks to the later
observation and the selector returns "B". -/
theorem get_dominant_color_name_last_max_witness :
    ([⟨50, "A"⟩, ⟨50, "B"⟩] : List DominantColor) ≠ [] ∧
    get_dominant_color_name [⟨50, "A"⟩, ⟨50, "B"⟩] = some "B" :=
  ⟨by decide,
    (get_dominant_color_name_last_max [⟨50, "A"⟩, ⟨50, "B"⟩] (by decide)).trans (by decide)⟩

/-- C7: on every non-empty observation list with pairwise distinct
`PixelPercent` values, the selector returns the simplified color of the
observation with the maximal `PixelPercent`. -/
theorem get_dominant_color_name_max_distinct (colors : List DominantColor)
    (c : DominantColor) (hmem : c ∈ colors)
    (hdis : (colors.map (fun d => d.pixelPercent)).Pairwise (fun a b => a ≠ b))
    (hmax : ∀ d ∈ colors, d.pixelPercent ≤ c.pixelPercent) :
    get_dominant_color_name colors = some c.simplifiedColor := by
  have hne : colors ≠ [] := fun he => by simp [he] at hmem
  have hM : (colors.map (fun d => d.pixelPercent)).max? = some c.pixelPercent :=
    (rat_max?_eq_some_iff _ _).mpr ⟨List.mem_map_of_mem _ hmem, by
      intro b hb
      obtain ⟨d, hd, rfl⟩ := List.mem_map.mp hb
      exact hmax d hd⟩
  rw [get_dominant_spec colors hne, hM]
  rw [List.pairwise_map] at hdis
  obtain ⟨l1, l2, rfl⟩ := List.append_of_mem hmem
  obtain ⟨-, hc2, h12⟩ := List.pairwise_append.mp hdis
  have h1 : ∀ d ∈ l1, d.pixelPercent ≠ c.pixelPercent :=
    fun d hd => h12 d hd c (List.mem_cons_self _ _)
  have h2 : ∀ d ∈ l2, c.pixelPercent ≠ d.pixelPercent :=
    (List.pairwise_cons.mp hc2).1
  rw [List.filter_append, List.filter_cons_of_pos (by simp),
    List.filter_eq_nil_iff.mpr (by
      intro d hd
      simp only [decide_eq_true_eq, Option.some.injEq]
      exact fun he => (h1 d hd) he.symm),
    List.filter_eq_nil_iff.mpr (by
      intro d hd
      simp only [decide_eq_true_eq, Option.some.injEq]
      exact h2 d hd)]
  rfl

/-- C7 witness: on {(30,"Red"),(70,"Blue")} the selector returns "Blue", the
color of the observation with the maximal percentage. -/
theorem get_dominant_color_name_max_distinct_witness :
    (⟨70, "Blue"⟩ : DominantColor) ∈ [⟨30, "Red"⟩, ⟨70, "Blue"⟩] ∧
    get_dominant_color_name [⟨30, "Red"⟩, ⟨70, "Blue"⟩] = some "Blue" :=
  ⟨by decide,
    get_dominant_color_name_max_distinct [⟨30, "Red"⟩, ⟨70, "Blue"⟩] ⟨70, "Blue"⟩
      (by decide) (by decide) (by decide)⟩

/-- The digit characters emitted for digits 0-9 denote themselves. -/
theorem charVal_digitChar (k : ℕ) (hk : k < 10) : charVal (Nat.digitChar k) = k := by
  interval_cases k <;> decide

/-- No digit character is the dash separator. -/
theorem digitChar_ne_dash (k : ℕ) : Nat.digitChar k ≠ '-' := by
  by_cases h : k < 16
  · interval_cases k <;> decide
  · simp only [Nat.digitChar,
      if_neg (by omega : ¬ k = 0), if_neg (by omega : ¬ k = 1),
      if_neg (by omega : ¬ k = 2), if_neg (by omega : ¬ k = 3),
      if_neg (by omega : ¬ k = 4), if_neg (by omega : ¬ k = 5),
      if_neg (by omega : ¬ k = 6), if_neg (by omega : ¬ k = 7),
      if_neg (by omega : ¬ k = 8), if_neg (by omega : ¬ k = 9),
      if_neg (by omega : ¬ k = 10), if_neg (by omega : ¬ k = 11),
      if_neg (by omega : ¬ k = 12), if_neg (by omega : ¬ k = 13),
      if_neg (by omega : ¬ k = 14), if_neg (by omega : ¬ k = 15)]
    decide

/-- The accumulator of `Nat.toDigitsCore` is appended behind the digits. -/
theorem toDigitsCore_append : ∀ (fuel n : ℕ) (ds : List Char),
    Nat.toDigitsCore 10 fuel n ds = Nat.toDigitsCore 10 fuel n [] ++ ds := by
  intro fuel
  induction fuel with
  | zero => intro n ds; simp [Nat.toDigitsCore]
  | succ f ih =>
    intro n ds
    by_cases h0 : n / 10 = 0
    · simp [Nat.toDigitsCore, h0]
    · simp only [Nat.toDigitsCore, h0, if_false]
      rw [ih (n / 10) (Nat.digitChar (n % 10) :: ds), ih (n / 10) [Nat.digitChar (n % 10)],
        List.append_assoc]
      rfl

/-- `digitsVal` of a list extended by one digit. -/
theorem digitsVal_concat (xs : List Char) (c : Char) :
    digitsVal (xs ++ [c]) = digitsVal xs * 10 + charVal c := by
  simp [digitsVal, List.foldl_append]

/-- `Nat.toDigitsCore` emits the decimal digits of its argument. -/
theorem toDigitsCore_val : ∀ (fuel n : ℕ), n < fuel →
    digitsVal (Nat.toDigitsCore 10 fuel n []) = n := by
  intro fuel
  induction fuel with
  | zero => omega
  | succ f ih =>
    intro n hn
    by_cases h0 : n / 10 = 0
    · have h1 : charVal (Nat.digitChar (n % 10)) = n % 10 := charVal_digitChar _ (by omega)
      simp [Nat.toDigitsCore, h0, digitsVal, h1]
      omega
    · simp only [Nat.toDigitsCore, h0, if_false]
      rw [toDigitsCore_append f (n / 10) [Nat.digitChar (n % 10)], digitsVal_concat,
        ih (n / 10) (by omega), charVal_digitChar _ (by omega)]
      omega

/-- Reading the decimal digits of `n` back gives `n`. -/
theorem digitsVal_toDigits (n : ℕ) : digitsVal (Nat.toDigits 10 n) = n :=
  toDigitsCore_val (n + 1) n (by omega)

/-- The decimal representation of a natural number is injective. -/
theorem nat_repr_inj {m n : ℕ} (h : Nat.repr m = Nat.repr n) : m = n := by
  have hlist : Nat.toDigits 10 m = Nat.toDigits 10 n := by
    have hd := congrArg String.data h
    simpa [Nat.repr, List.asString] using hd
  rw [← digitsVal_toDigits m, ← digitsVal_toDigits n, hlist]

/-- `Nat.toDigitsCore` never emits a dash. -/
theorem toDigitsCore_no_dash : ∀ (fuel n : ℕ) (ds : List Char), '-' ∉ ds →
    '-' ∉ Nat.toDigitsCore 10 fuel n ds := by
  intro fuel
  induction fuel with
  | zero => intro n ds h; simpa [Nat.toDigitsCore] using h
  | succ f ih =>
    intro n ds h
    have hcons : '-' ∉ Nat.digitChar (n % 10) :: ds := by
      intro hmem
      rcases List.mem_cons.mp hmem with he | he
      · exact digitChar_ne_dash _ he.symm
      · exact h he
    by_cases h0 : n / 10 = 0
    · simpa [Nat.toDigitsCore, h0] using hcons
    · simp only [Nat.toDigitsCore, h0, if_false]
      exact ih (n / 10) _ hcons

/-- The decimal representation of a natural number contains no dash. -/
theorem repr_no_dash (n : ℕ) : '-' ∉ (Nat.repr n).data := by
  simpa [Nat.repr, List.asString, Nat.toDigits] using
    toDigitsCore_no_dash (n + 1) n [] (by simp)

/-- Splitting at the last dash of a character list is unambiguous when the
suffixes are dash-free. -/
theorem append_dash_cancel : ∀ {a b d e : List Char}, '-' ∉ d → '-' ∉ e →
    a ++ '-' :: d = b ++ '-' :: e → a = b ∧ d = e := by
  intro a
  induction a with
  | nil =>
    intro b d e hd he h
    cases b with
    | nil => simpa using h
    | cons x bs =>
      simp only [List.nil_append, List.cons_append, List.cons.injEq] at h
      exact absurd (h.2 ▸ List.mem_append.mpr
        (Or.inr (List.mem_cons_self _ _))) hd
  | cons x as ih =>
    intro b d e hd he h
    cases b with
    | nil =>
      simp only [List.nil_append, List.cons_append, List.cons.injEq] at h
      exact absurd (h.2.symm ▸ List.mem_append.mpr
        (Or.inr (List.mem_cons_self _ _))) he
    | cons y bs =>
      simp only [List.cons_append, List.cons.injEq] at h
      obtain ⟨h1, h2⟩ := ih hd he h.2
      exact ⟨by rw [h.1, h1], h2⟩

/-- Two extractor keys agree exactly when both the label name and the
instance index agree. -/
theorem key_inj {n1 n2 : String} {i1 i2 : ℕ}
    (h : n1 ++ "-" ++ Nat.repr i1 = n2 ++ "-" ++ Nat.repr i2) : n1 = n2 ∧ i1 = i2 := by
  have hdata : n1.data ++ '-' :: (Nat.repr i1).data =
      n2.data ++ '-' :: (Nat.repr i2).data := by
    have hd := congrArg String.data h
    simpa [String.data_append] using hd
  obtain ⟨h1, h2⟩ := append_dash_cancel (repr_no_dash i1) (repr_no_dash i2) hdata
  exact ⟨String.ext h1, nat_repr_inj (String.ext h2)⟩

/-- The conditional-insert loop over one label's enumerated instances is the
insert fold over that label's qualifying entries. -/
theorem foldl_cond_insert (name : String) (minc : ℚ) :
    ∀ (xs : List (ℕ × RekInstance)) (m : List (String × BoundingBox)),
    xs.foldl (fun result p => if minc ≤ p.2.confidence then
        dict_insert result (name ++ "-" ++ Nat.repr p.1) p.2.boundingBox else result) m =
      ((xs.filter (fun p => minc ≤ p.2.confidence)).map
        (fun p => (name ++ "-" ++ Nat.repr p.1, p.2.boundingBox))).foldl
        (fun acc p => dict_insert acc p.1 p.2) m := by
  intro xs
  induction xs with
  | nil => intro m; rfl
  | cons p xs ih =>
    intro m
    by_cases hc : minc ≤ p.2.confidence
    · rw [List.foldl_cons, if_pos hc, List.filter_cons_of_pos (by simpa using hc),
        List.map_cons, List.foldl_cons, ih]
    · rw [List.foldl_cons, if_neg hc, List.filter_cons_of_neg (by simpa using hc), ih]

/-- The whole extractor is the insert fold over the concatenation of every
label's qualifying entries. -/
theorem extract_eq (labels : List Label) (minc : ℚ) :
    extract_bounding_boxes labels minc =
      (labels.flatMap (fun l => instance_entries l.name minc l.instances)).foldl
        (fun acc p => dict_insert acc p.1 p.2) [] := by
  suffices h : ∀ (m : List (String × BoundingBox)),
      labels.foldl (fun result l => (l.instances.enum).foldl (fun result p =>
        if minc ≤ p.2.confidence then
          dict_insert result (l.name ++ "-" ++ Nat.repr p.1) p.2.boundingBox
        else result) result) m =
      (labels.flatMap (fun l => instance_entries l.name minc l.instances)).foldl
        (fun acc p => dict_insert acc p.1 p.2) m from h []
  induction labels with
  | nil => intro m; rfl
  | cons l ls ih =>
    intro m
    rw [List.foldl_cons, foldl_cond_insert l.name minc l.instances.enum m, ih,
      List.flatMap_cons, List.foldl_append]
    rfl

/-- A lookup in the extractor result finds the last qualifying entry whose
key matches. -/
theorem extract_lookup (labels : List Label) (minc : ℚ) (k : String) :
    dict_lookup (extract_bounding_boxes labels minc) k =
      (((labels.flatMap (fun l => instance_entries l.name minc l.instances)).filter
        (fun q => q.1 = k)).getLast?).map (fun q => q.2) := by
  rw [extract_eq, dict_lookup_foldl_insert]
  simp [dict_lookup]

/-- Every entry a label contributes is keyed by that label's name. -/
theorem instance_entries_key_shape {name : String} {minc : ℚ}
    {insts : List RekInstance} {q : String × BoundingBox}
    (hq : q ∈ instance_entries name minc insts) :
    ∃ j : ℕ, q.1 = name ++ "-" ++ Nat.repr j := by
  unfold instance_entries at hq
  obtain ⟨p, _, rfl⟩ := List.mem_map.mp hq
  exact ⟨p.1, rfl⟩

/-- Below an enumeration's base, no index matches. -/
theorem enumFrom_filter_idx_lt {α : Type} :
    ∀ (l : List α) (n m : ℕ), m < n →
    (List.enumFrom n l).filter (fun p => p.1 = m) = [] := by
  intro l
  induction l with
  | nil => intro n m h; rfl
  | cons a t ih =>
    intro n m h
    rw [List.enumFrom_cons, List.filter_cons_of_neg (by simp; omega)]
    exact ih (n + 1) m (by omega)

/-- Filtering an enumeration for one index keeps exactly the element at that
index, when it exists. -/
theorem enumFrom_filter_idx {α : Type} :
    ∀ (l : List α) (n i : ℕ),
    (List.enumFrom n l).filter (fun p => p.1 = n + i) =
      ((l.get? i).map (fun a => (n + i, a))).toList := by
  intro l
  induction l with
  | nil => intro n i; rfl
  | cons a t ih =>
    intro n i
    rw [List.enumFrom_cons]
    cases i with
    | zero =>
      rw [List.filter_cons_of_pos (by simp)]
      rw [enumFrom_filter_idx_lt t (n + 1) (n + 0) (by omega)]
      simp
    | succ j =>
      rw [List.filter_cons_of_neg (by simp)]
      have hnj : n + (j + 1) = (n + 1) + j := by omega
      simp only [hnj]
      rw [ih (n + 1) j]
      simp

/-- Filtering `l.enum` for a valid index keeps exactly that indexed pair. -/
theorem enum_filter_idx {α : Type} (l : List α) (i : ℕ) (hi : i < l.length) :
    (l.enum).filter (fun p => p.1 = i) = [(i, l.get ⟨i, hi⟩)] := by
  have h := enumFrom_filter_idx l 0 i
  simp only [Nat.zero_add] at h
  rw [List.enum_eq_enumFrom, h, List.get?_eq_get hi]
  rfl

/-- Filtering one label's entries for the key of index `i` keeps exactly the
entry of instance `i`, when that instance qualifies. -/
theorem instance_entries_filter_key (name : String) (minc : ℚ)
    (insts : List RekInstance) (i : ℕ) (hi : i < insts.length) :
    (instance_entries name minc insts).filter
        (fun q => q.1 = name ++ "-" ++ Nat.repr i) =
      if minc ≤ (insts.get ⟨i, hi⟩).confidence
      then [(name ++ "-" ++ Nat.repr i, (insts.get ⟨i, hi⟩).boundingBox)] else [] := by
  unfold instance_entries
  rw [List.filter_map]
  have hpred : ∀ p ∈ (insts.enum).filter (fun p => decide (minc ≤ p.2.confidence)),
      ((fun q : String × BoundingBox => decide (q.1 = name ++ "-" ++ Nat.repr i)) ∘
        (fun p : ℕ × RekInstance => (name ++ "-" ++ Nat.repr p.1, p.2.boundingBox))) p =
      (fun p : ℕ × RekInstance => decide (p.1 = i)) p := by
    intro p _
    simp only [Function.comp_apply]
    exact decide_eq_decide.mpr ⟨fun h => (key_inj h).2, fun h => by rw [h]⟩
  rw [List.filter_congr hpred, List.filter_filter]
  have hcomm : ∀ p ∈ insts.enum,
      (fun p : ℕ × RekInstance => decide (p.1 = i) && decide (minc ≤ p.2.confidence)) p =
      (fun p : ℕ × RekInstance => decide (minc ≤ p.2.confidence) && decide (p.1 = i)) p :=
    fun p _ => Bool.and_comm _ _
  rw [List.filter_congr hcomm, ← List.filter_filter, enum_filter_idx insts i hi]
  by_cases hc : minc ≤ insts[i].confidence <;> simp [hc]

/-- C4 (amended): for every label list whose label names are pairwise
distinct and every confidence threshold, the extractor result contains the
entry keyed `"<labelName>-<index>"` mapped to that instance's bounding box
exactly when the instance (indexed in received order within its label) has
confidence at least the threshold; an instance strictly below the threshold
produces no entry (at threshold 75, confidence 74.999 is omitted and exactly
75.0 is included). -/
theorem extract_bounding_boxes_spec (labels : List Label) (minc : ℚ)
    (hnames : labels.Pairwise (fun a b => a.name ≠ b.name))
    (L : Label) (hL : L ∈ labels) (i : ℕ) (hi : i < L.instances.length) :
    dict_lookup (extract_bounding_boxes labels minc) (L.name ++ "-" ++ Nat.repr i) =
      if minc ≤ (L.instances.get ⟨i, hi⟩).confidence
      then some (L.instances.get ⟨i, hi⟩).boundingBox else none := by
  rw [extract_lookup]
  obtain ⟨u, v, rfl⟩ := List.append_of_mem hL
  obtain ⟨-, hLv, huv⟩ := List.pairwise_append.mp hnames
  have hu : ∀ l ∈ u, l.name ≠ L.name :=
    fun l hl => huv l hl L (List.mem_cons_self _ _)
  have hv : ∀ l ∈ v, L.name ≠ l.name := (List.pairwise_cons.mp hLv).1
  rw [List.flatMap_append, List.flatMap_cons, List.filter_append, List.filter_append]
  have hunil : (u.flatMap (fun l => instance_entries l.name minc l.instances)).filter
      (fun q => q.1 = L.name ++ "-" ++ Nat.repr i) = [] := by
    rw [List.filter_eq_nil_iff]
    intro q hq
    obtain ⟨l, hl, hql⟩ := List.mem_flatMap.mp hq
    obtain ⟨j, hkey⟩ := instance_entries_key_shape hql
    simp only [decide_eq_true_eq]
    intro hqk
    rw [hkey] at hqk
    exact hu l hl (key_inj hqk).1
  have hvnil : (v.flatMap (fun l => instance_entries l.name minc l.instances)).filter
      (fun q => q.1 = L.name ++ "-" ++ Nat.repr i) = [] := by
    rw [List.filter_eq_nil_iff]
    intro q hq
    obtain ⟨l, hl, hql⟩ := List.mem_flatMap.mp hq
    obtain ⟨j, hkey⟩ := instance_entries_key_shape hql
    simp only [decide_eq_true_eq]
    intro hqk
    rw [hkey] at hqk
    exact hv l hl (key_inj hqk).1.symm
  rw [hunil, hvnil, instance_entries_filter_key L.name minc L.instances i hi]
  by_cases hc : minc ≤ L.instances[i].confidence <;> simp [hc]

/-- C4 witness: one label "Cat" with two instances at confidences 74.999 and
75 against threshold 75: the entry "Cat-0" is absent and the entry "Cat-1"
maps to the second instance's box. -/
theorem extract_bounding_boxes_spec_witness :
    dict_lookup (extract_bounding_boxes
      [⟨"Cat", [⟨74.999, ⟨0, 0, 1, 1⟩⟩, ⟨75, ⟨1, 1, 1, 1⟩⟩]⟩] 75) "Cat-0" = none ∧
    dict_lookup (extract_bounding_boxes
      [⟨"Cat", [⟨74.999, ⟨0, 0, 1, 1⟩⟩, ⟨75, ⟨1, 1, 1, 1⟩⟩]⟩] 75) "Cat-1" =
      some ⟨1, 1, 1, 1⟩ := by
  constructor
  · exact (extract_bounding_boxes_spec
      [⟨"Cat", [⟨74.999, ⟨0, 0, 1, 1⟩⟩, ⟨75, ⟨1, 1, 1, 1⟩⟩]⟩] 75
      (by simp) ⟨"Cat", [⟨74.999, ⟨0, 0, 1, 1⟩⟩, ⟨75, ⟨1, 1, 1, 1⟩⟩]⟩
      (List.mem_singleton.mpr rfl) 0 (by norm_num)).trans (by norm_num)
  · exact (extract_bounding_boxes_spec
      [⟨"Cat", [⟨74.999, ⟨0, 0, 1, 1⟩⟩, ⟨75, ⟨1, 1, 1, 1⟩⟩]⟩] 75
      (by simp) ⟨"Cat", [⟨74.999, ⟨0, 0, 1, 1⟩⟩, ⟨75, ⟨1, 1, 1, 1⟩⟩]⟩
      (List.mem_singleton.mpr rfl) 1 (by norm_num)).trans (by norm_num)
